import Mathlib

/-!
Verification of the Milvus ingestion pipeline (watcher → normalizer →
ingestor) against its natural-language specification.

The Python sources are shallowly embedded:
* JSON values (as produced by `json.loads`) are the inductive `JValue`;
  JSON `null` and Python `None` are both `JValue.null`, exactly as in
  Python where they are the same object.
* Python strings are `Str := List Char`.
* Filesystem and vector-store side effects of the ingestor are recorded
  as an explicit `Effect` trace produced by a deterministic model of
  `main`; external collaborators (the embedding model's numeric output,
  the Milvus client's network behaviour, the wall clock) are out of
  scope per the spec and are not part of the trace payloads.
-/

/-- Python strings, modelled as lists of characters. -/
abbrev Str := List Char

/-- Convert a Lean string literal to the `Str` representation. -/
def chars (s : String) : Str := s.toList

/-- The characters stripped by Python's `str.strip()` with no argument
(ASCII whitespace; the exotic unicode spaces do not occur in this code base). -/
def isPyWS (c : Char) : Bool :=
  c = ' ' || c = '\t' || c = '\n' || c = '\r' || c = '\x0b' || c = '\x0c'

/-- Python `s.strip()`: drop leading and trailing whitespace. -/
def pyStrip (s : Str) : Str :=
  ((s.dropWhile isPyWS).reverse.dropWhile isPyWS).reverse

/-- Python `" ".join(ps)`: interleave a single space between the pieces. -/
def joinSp : List Str → Str
  | [] => []
  | [p] => p
  | p :: q :: ps => p ++ ' ' :: joinSp (q :: ps)

/-- Decimal digit character for a digit value (`0 ≤ d ≤ 9`). -/
def digitChar (d : Nat) : Char := Char.ofNat (48 + d)

/-- Fuelled decimal rendering of a natural number (big-endian digit list). -/
def natCharsAux : Nat → Nat → Str
  | 0, _ => []
  | fuel + 1, n => if n = 0 then [] else natCharsAux fuel (n / 10) ++ [digitChar (n % 10)]

/-- Python `str(n)` for a natural number. -/
def natChars (n : Nat) : Str := if n = 0 then ['0'] else natCharsAux (n + 1) n

/-- Python `int(s)` on a string of decimal digits. -/
def digitsVal (s : Str) : Nat := s.foldl (fun a c => a * 10 + (c.toNat - 48)) 0

/-- Python `str(n)` for an integer. -/
def intChars (n : Int) : Str :=
  if n < 0 then '-' :: natChars (-n).toNat else natChars n.toNat

/-- JSON values as returned by Python's `json.loads`.  Python `None` and JSON
`null` coincide, so a single constructor stands for both.  Object key lists
are the dictionaries produced by the parser (keys unique). -/
inductive JValue where
  | null
  | bool (b : Bool)
  | num (n : Int)
  | str (s : Str)
  | arr (items : List JValue)
  | obj (fields : List (Str × JValue))

/-- Python `d[k]`-style lookup in a dictionary's field list. -/
def lookupField (k : Str) : List (Str × JValue) → Option JValue
  | [] => none
  | (k2, v) :: rest => if k = k2 then some v else lookupField k rest

/-- Is this value a Python `dict`? -/
def JValue.isDict : JValue → Bool
  | .obj _ => true
  | _ => false

/-- Open-brace and close-brace characters (for Python `str()` of containers). -/
def lbraceChar : Char := Char.ofNat 123

def rbraceChar : Char := Char.ofNat 125

def squoteChar : Char := Char.ofNat 39

/-- Join rendered pieces with `", "`, as Python container printing does. -/
def joinCommaSp : List Str → Str
  | [] => []
  | [p] => p
  | p :: q :: ps => p ++ ',' :: ' ' :: joinCommaSp (q :: ps)

/-- Escape one character the way Python `repr` does inside a quoted string
(backslash, the chosen quote, and the common control characters). -/
def pyEscapeChar (quote : Char) (c : Char) : Str :=
  if c = '\\' then ['\\', '\\']
  else if c = quote then ['\\', quote]
  else if c = '\n' then ['\\', 'n']
  else if c = '\r' then ['\\', 'r']
  else if c = '\t' then ['\\', 't']
  else [c]

/-- Python `repr` of a string: single quotes, unless the string contains a
single quote and no double quote. -/
def pyReprStr (s : Str) : Str :=
  let quote := if s.contains squoteChar && !s.contains '"' then '"' else squoteChar
  quote :: (s.flatMap (pyEscapeChar quote)) ++ [quote]

mutual
/-- Python `str(v)` on a JSON value. -/
def pyStr : JValue → Str
  | .null => chars "None"
  | .bool true => chars "True"
  | .bool false => chars "False"
  | .num n => intChars n
  | .str s => s
  | .arr items => '[' :: joinCommaSp (pyStrList items) ++ [']']
  | .obj fields => lbraceChar :: joinCommaSp (pyStrFields fields) ++ [rbraceChar]

/-- Python `repr(v)`: differs from `str` only on strings. -/
def pyRepr : JValue → Str
  | .str s => pyReprStr s
  | .null => chars "None"
  | .bool true => chars "True"
  | .bool false => chars "False"
  | .num n => intChars n
  | .arr items => '[' :: joinCommaSp (pyStrList items) ++ [']']
  | .obj fields => lbraceChar :: joinCommaSp (pyStrFields fields) ++ [rbraceChar]

def pyStrList : List JValue → List Str
  | [] => []
  | v :: vs => pyRepr v :: pyStrList vs

def pyStrFields : List (Str × JValue) → List Str
  | [] => []
  | (k, v) :: kvs => (pyReprStr k ++ ':' :: ' ' :: pyRepr v) :: pyStrFields kvs
end

/-- Python truthiness (`if x:`) of a JSON value. -/
def truthy : JValue → Bool
  | .null => false
  | .bool b => b
  | .num n => n ≠ 0
  | .str s => !s.isEmpty
  | .arr items => !items.isEmpty
  | .obj fields => !fields.isEmpty

/-- One physical line of a JSONL file, classified by what `line.strip()`
and `json.loads(line)` do with it: whitespace-only, not valid JSON, or a
parsed JSON value.  (JSON parsing itself is the external `json` library;
this classification is its observable outcome on the line.) -/
inductive LineContent where
  | blank
  | malformed
  | record (r : JValue)

/-- Does this line yield a record? -/
def LineContent.toRecord : LineContent → Option JValue
  | .record r => some r
  | _ => none

/-- Is this line a parsed record (as opposed to blank or malformed)? -/
def LineContent.isRecordLine : LineContent → Bool
  | .record _ => true
  | _ => false

/-- Map a fallible function over a list, stopping at the first failure
(the first exception raised inside a Python `for` loop). -/
def mapMOpt (f : α → Option β) : List α → Option (List β)
  | [] => some []
  | x :: xs =>
    match f x, mapMOpt f xs with
    | some y, some ys => some (y :: ys)
    | _, _ => none

namespace IngestToMilvus

/-- The seven extraction paths of `build_embedding_text`
(src/ingest_to_milvus.py, `FIELDS`). -/
def FIELDS : List (List Str) :=
  [ [chars "important", chars "title"],
    [chars "important", chars "category"],
    [chars "important", chars "sub_category"],
    [chars "important", chars "tags"],
    [chars "important", chars "targets", chars "os"],
    [chars "important", chars "targets", chars "system"],
    [chars "important", chars "risk"] ]

/-- `get_in` from src/ingest_to_milvus.py: walk a key path, returning
`None` when a step is missing or the current value is not a dict. -/
def get_in (d : JValue) : List Str → JValue
  | [] => d
  | k :: ks =>
    match d with
    | .obj fields =>
      match lookupField k fields with
      | some v => get_in v ks
      | none => .null
    | _ => .null

/-- `to_text` from src/ingest_to_milvus.py: `None` becomes empty, lists are
space-joined over their non-`None` elements, everything else is `str`-ed. -/
def to_text : JValue → Str
  | .null => []
  | .arr items => joinSp ((items.filter fun x => match x with | .null => false | _ => true).map pyStr)
  | v => pyStr v

/-- `build_embedding_text` from src/ingest_to_milvus.py: join ALL seven
fragments with single spaces (empty fragments included), then strip. -/
def build_embedding_text (record : JValue) : Str :=
  pyStrip (joinSp (FIELDS.map fun p => to_text (get_in record p)))

end IngestToMilvus

namespace EmbeddingsPreview

/-- `FIELDS` from src/embeddings_preview.py. -/
def FIELDS : List (List Str) :=
  [ [chars "important", chars "title"],
    [chars "important", chars "category"],
    [chars "important", chars "sub_category"],
    [chars "important", chars "tags"],
    [chars "important", chars "targets", chars "os"],
    [chars "important", chars "targets", chars "system"],
    [chars "important", chars "risk"] ]

/-- `get_in` from src/embeddings_preview.py. -/
def get_in (d : JValue) : List Str → JValue
  | [] => d
  | k :: ks =>
    match d with
    | .obj fields =>
      match lookupField k fields with
      | some v => get_in v ks
      | none => .null
    | _ => .null

/-- `to_text` from src/embeddings_preview.py. -/
def to_text : JValue → Str
  | .null => []
  | .arr items => joinSp ((items.filter fun x => match x with | .null => false | _ => true).map pyStr)
  | v => pyStr v

/-- `build_embedding_text` from src/embeddings_preview.py: build the seven
fragments, FILTER OUT the empty ones, join with single spaces, strip. -/
def build_embedding_text (record : JValue) : Str :=
  pyStrip (joinSp (((FIELDS.map fun p => to_text (get_in record p))).filter fun p => !p.isEmpty))

end EmbeddingsPreview

namespace EmbeddingsReal

/-- `FIELDS` from src/embeddings_real.py. -/
def FIELDS : List (List Str) :=
  [ [chars "important", chars "title"],
    [chars "important", chars "category"],
    [chars "important", chars "sub_category"],
    [chars "important", chars "tags"],
    [chars "important", chars "targets", chars "os"],
    [chars "important", chars "targets", chars "system"],
    [chars "important", chars "risk"] ]

/-- `get_in` from src/embeddings_real.py. -/
def get_in (d : JValue) : List Str → JValue
  | [] => d
  | k :: ks =>
    match d with
    | .obj fields =>
      match lookupField k fields with
      | some v => get_in v ks
      | none => .null
    | _ => .null

/-- `to_text` from src/embeddings_real.py. -/
def to_text : JValue → Str
  | .null => []
  | .arr items => joinSp ((items.filter fun x => match x with | .null => false | _ => true).map pyStr)
  | v => pyStr v

/-- `build_embedding_text` from src/embeddings_real.py: fragments, filter
empties, join with single spaces, strip. -/
def build_embedding_text (rec : JValue) : Str :=
  pyStrip (joinSp (((FIELDS.map fun p => to_text (get_in rec p))).filter fun p => !p.isEmpty))

end EmbeddingsReal

namespace IngestToMilvus

/-- `list_to_str` from `extract_scalar_fields` (src/ingest_to_milvus.py):
lists are space-joined over non-`None` elements, `None` is empty,
anything else is `str`-ed. -/
def list_to_str : JValue → Str
  | .arr items => joinSp ((items.filter fun x => match x with | .null => false | _ => true).map pyStr)
  | .null => []
  | v => pyStr v

/-- One row upserted into the vector store (src/ingest_to_milvus.py,
`flush_batch`).  The `embedding` column is the external Embedder's numeric
output and is out of scope, so it is not recorded. -/
structure Row where
  id : JValue
  title : JValue
  category : JValue
  sub_category : JValue
  risk : JValue
  tags : Str
  os : Str
  system : Str
  raw : JValue

/-- Python `v.get(k, default)`; `none` models the `AttributeError` raised
when `v` is not a dict. -/
def pyDictGet (v : JValue) (k : Str) (default : JValue) : Option JValue :=
  match v with
  | .obj fields => some ((lookupField k fields).getD default)
  | _ => none

/-- `extract_scalar_fields` from src/ingest_to_milvus.py.  `none` models the
`AttributeError` raised when `record`, `record["important"]` or
`important["targets"]` is present but not a dict. -/
def extract_scalar_fields (record : JValue) : Option Row := do
  let important ← pyDictGet record (chars "important") (.obj [])
  let targets ← pyDictGet important (chars "targets") (.obj [])
  let i ← pyDictGet record (chars "id") (.str [])
  let t ← pyDictGet important (chars "title") (.str [])
  let c ← pyDictGet important (chars "category") (.str [])
  let sc ← pyDictGet important (chars "sub_category") (.str [])
  let rk ← pyDictGet important (chars "risk") (.str [])
  let tg ← pyDictGet important (chars "tags") (.arr [])
  let osv ← pyDictGet targets (chars "os") (.arr [])
  let sysv ← pyDictGet targets (chars "system") (.arr [])
  pure { id := i, title := t, category := c, sub_category := sc, risk := rk,
         tags := list_to_str tg, os := list_to_str osv, system := list_to_str sysv,
         raw := record }

/-- `stream_records` from src/ingest_to_milvus.py: skip blank lines,
silently skip lines that fail to parse, yield the rest. -/
def stream_records (lines : List LineContent) : List JValue :=
  lines.filterMap LineContent.toRecord

/-- Externally observable actions of one `main` run, in order.  Timestamps
and the raw embedding numbers are external and not recorded. -/
inductive Effect where
  | connect
  | createCollection
  | createIndexAttempt
  | embed (texts : List Str)
  | insert (rows : List Row)
  | createLock
  | writeCheckpoint (collection : Str) (records : Nat) (model : Str) (dim : Nat)
  | removeLock

/-- Injection points for an exception inside the locked phase (indices count
flushed batches from 0). -/
inductive FailPoint where
  | modelLoad
  | embedAt (k : Nat)
  | insertAt (k : Nat)
  | checkpoint
  deriving DecidableEq

/-- Configuration values consumed by `main`, as already resolved from
`embedding.yaml` (YAML loading is an external collaborator). -/
structure IngestConfig where
  batch_size : Nat
  collection_name : Str
  model_name : Str
  dim : Nat

/-- The state `main` finds on disk and in the store, plus the dataset file's
lines and the injected failure. -/
structure IngestEnv where
  fileExists : Bool
  collectionExists : Bool
  doneExists : Bool
  lockExists : Bool
  lines : List LineContent
  cfg : IngestConfig
  failAt : Option FailPoint

/-- Outcome of one `main` run: its effect trace, whether an exception
propagated, whether `sys.exit` was called, and which markers exist after. -/
structure IngestResult where
  effects : List Effect
  raised : Bool
  exited : Option Nat
  doneAfter : Bool
  lockAfter : Bool

/-- `flush_batch` from src/ingest_to_milvus.py for the `i`-th flush of the
buffered records `buf`: nothing on an empty buffer; otherwise one embedding
call over the buffered texts, then one insert of the projected rows.
Returns the effects that completed and whether an exception was raised
(injected at `failAt`, or an `AttributeError` from `extract_scalar_fields`,
which the source would hit after `model.encode` and before `insert`). -/
def flushBatch (i : Nat) (failAt : Option FailPoint) (buf : List JValue) :
    List Effect × Bool :=
  if buf.isEmpty then ([], false)
  else if failAt = some (.embedAt i) then ([], true)
  else
    let texts := buf.map build_embedding_text
    match mapMOpt extract_scalar_fields buf with
    | none => ([.embed texts], true)
    | some rows =>
      if failAt = some (.insertAt i) then ([.embed texts], true)
      else ([.embed texts, .insert rows], false)

/-- The streaming loop of `main`: append each record to the buffer and flush
whenever `batch_size` records are buffered, then flush the remainder.
`i` numbers the flushes.  An exception from a flush propagates at once. -/
def ingestLoop (b : Nat) (failAt : Option FailPoint) :
    List JValue → List JValue → Nat → List Effect × Bool
  | [], buf, i => flushBatch i failAt buf
  | r :: rest, buf, i =>
    let buf2 := buf ++ [r]
    if b ≤ buf2.length then
      match flushBatch i failAt buf2 with
      | (effs, true) => (effs, true)
      | (effs, false) =>
        let out := ingestLoop b failAt rest [] (i + 1)
        (effs ++ out.1, out.2)
    else
      ingestLoop b failAt rest buf2 i

/-- `ensure_collection` from src/ingest_to_milvus.py, as a trace: create the
collection when absent; always attempt index creation (errors swallowed). -/
def ensureCollectionEffects (collectionExists : Bool) : List Effect :=
  (if collectionExists then [] else [.createCollection]) ++ [.createIndexAttempt]

/-- `main` from src/ingest_to_milvus.py: arg checks, config load, connect,
`ensure_collection`, then the checkpoint/lock gate, then the locked phase
(lock, model load, streaming batches, atomic checkpoint) with the lock
removed in `finally`. -/
def ingestMain (env : IngestEnv) : IngestResult :=
  if !env.fileExists then
    { effects := [], raised := false, exited := some 2,
      doneAfter := env.doneExists, lockAfter := env.lockExists }
  else
    let pre := Effect.connect :: ensureCollectionEffects env.collectionExists
    if env.doneExists then
      { effects := pre, raised := false, exited := none,
        doneAfter := true, lockAfter := env.lockExists }
    else if env.lockExists then
      { effects := pre, raised := false, exited := none,
        doneAfter := false, lockAfter := true }
    else if env.failAt = some .modelLoad then
      { effects := pre ++ [.createLock, .removeLock], raised := true,
        exited := none, doneAfter := false, lockAfter := false }
    else
      let records := stream_records env.lines
      let out := ingestLoop env.cfg.batch_size env.failAt records [] 0
      if out.2 then
        { effects := pre ++ .createLock :: out.1 ++ [.removeLock],
          raised := true, exited := none, doneAfter := false, lockAfter := false }
      else if env.failAt = some .checkpoint then
        { effects := pre ++ .createLock :: out.1 ++ [.removeLock],
          raised := true, exited := none, doneAfter := false, lockAfter := false }
      else
        { effects := pre ++ .createLock :: out.1 ++
            [.writeCheckpoint env.cfg.collection_name records.length
              env.cfg.model_name env.cfg.dim, .removeLock],
          raised := false, exited := none, doneAfter := true, lockAfter := false }

end IngestToMilvus

namespace NormalizeAndMove

/-- Is `c` kept by the slug regex (`[^a-z0-9]` is replaced)? -/
def isSlugChar (c : Char) : Bool :=
  (97 ≤ c.toNat && c.toNat ≤ 122) || (48 ≤ c.toNat && c.toNat ≤ 57)

/-- Python `s.lower()` (ASCII; the classification keys in this pipeline
are ASCII). -/
def pyLower (s : Str) : Str := s.map Char.toLower

/-- Helper for the `[^a-z0-9]+` substitution: the flag records whether the
previous character was part of a non-alphanumeric run (already replaced). -/
def slugCollapseAux : Bool → Str → Str
  | _, [] => []
  | inRun, c :: rest =>
    if isSlugChar c then c :: slugCollapseAux false rest
    else if inRun then slugCollapseAux true rest
    else '_' :: slugCollapseAux true rest

/-- `re.sub(r"[^a-z0-9]+", "_", s)`: replace each maximal run of
non-alphanumeric characters by one underscore. -/
def slugCollapse (s : Str) : Str := slugCollapseAux false s

/-- Helper for the `_+` substitution, same run-flag scheme. -/
def underscoreCollapseAux : Bool → Str → Str
  | _, [] => []
  | inRun, c :: rest =>
    if c = '_' then
      if inRun then underscoreCollapseAux true rest
      else '_' :: underscoreCollapseAux true rest
    else c :: underscoreCollapseAux false rest

/-- `re.sub(r"_+", "_", s)`: collapse underscore runs. -/
def underscoreCollapse (s : Str) : Str := underscoreCollapseAux false s

/-- Python `s.strip(us)` for the underscore character. -/
def stripUnderscore (s : Str) : Str :=
  ((s.dropWhile fun c => c = '_').reverse.dropWhile fun c => c = '_').reverse

/-- `to_slug` from src/normalize_and_move.py: lowercase, collapse
non-alphanumeric runs to single underscores, collapse underscore runs,
strip underscores, defaulting to "record" when empty. -/
def to_slug (text : Str) : Str :=
  let s1 := slugCollapse (pyLower text)
  let s2 := underscoreCollapse s1
  let s3 := stripUnderscore s2
  if s3.isEmpty then chars "record" else s3

/-- `folder.glob(f"{slug}_v*.jsonl")` membership for one file name: the name
is the literal prefix `slug_v`, then anything, then the literal `.jsonl`. -/
def globMatch (slug name : Str) : Bool :=
  decide ((slug ++ chars "_v") <+: name) && decide ((chars ".jsonl") <:+ name)
    && decide (slug.length + 8 ≤ name.length)

/-- The trailing run of characters satisfying `p`. -/
def takeRightWhile (p : Char → Bool) (s : Str) : Str :=
  (s.reverse.takeWhile p).reverse

/-- The string without its trailing run of characters satisfying `p`. -/
def dropRightWhile (p : Char → Bool) (s : Str) : Str :=
  (s.reverse.dropWhile p).reverse

/-- `re.search(r"_v(\d+)\.jsonl$", name)` and `int(m.group(1))`: anchored at
the end, the match is the maximal digit run right before the final `.jsonl`,
which must be nonempty and preceded by the literal `_v`. -/
def regexVersion (name : Str) : Option Nat :=
  if decide ((chars ".jsonl") <:+ name) then
    if !(takeRightWhile Char.isDigit (name.take (name.length - 6))).isEmpty
        && decide ((chars "_v") <:+ dropRightWhile Char.isDigit (name.take (name.length - 6))) then
      some (digitsVal (takeRightWhile Char.isDigit (name.take (name.length - 6))))
    else none
  else none

/-- Python `max(versions)` over a nonempty list of naturals. -/
def listMaxNat (l : List Nat) : Nat := l.foldl Nat.max 0

/-- The version number `next_version_path` chooses (the `v` of the source). -/
def nextVersionNum (folder : List Str) (slug : Str) : Nat :=
  if (folder.filter (globMatch slug)).isEmpty then 1
  else if ((folder.filter (globMatch slug)).filterMap regexVersion).isEmpty then 1
  else listMaxNat ((folder.filter (globMatch slug)).filterMap regexVersion) + 1

/-- `next_version_path` from src/normalize_and_move.py, as the chosen file
name within the destination folder (whose existing file names are `folder`). -/
def next_version_path (folder : List Str) (slug : Str) : Str :=
  slug ++ chars "_v" ++ natChars (nextVersionNum folder slug) ++ chars ".jsonl"

/-- Extension-dispatched content of a submission: a `.jsonl` file is read
line by line, anything else through one `json.load` (`none` = parse failure). -/
inductive SubmissionBody where
  | jsonl (lines : List LineContent)
  | single (doc : Option JValue)

/-- The JSONL branch of `normalize_to_jsonl`: skip blank lines, abort on a
line that fails to parse or is not an object, emit objects in order. -/
def jsonlNormLoop : List LineContent → List JValue → Nat → Except Str (List JValue × Nat)
  | [], acc, n => .ok (acc.reverse, n)
  | .blank :: rest, acc, n => jsonlNormLoop rest acc n
  | .malformed :: _, _, _ => .error (chars "Invalid JSONL line")
  | .record r :: rest, acc, n =>
    match r with
    | .obj fields => jsonlNormLoop rest (.obj fields :: acc) (n + 1)
    | _ => .error (chars "Invalid JSONL line: Line is not a JSON object")

/-- The array branch of `normalize_to_jsonl`: abort on a non-object element. -/
def arrayNormLoop : List JValue → List JValue → Nat → Except Str (List JValue × Nat)
  | [], acc, n => .ok (acc.reverse, n)
  | item :: rest, acc, n =>
    match item with
    | .obj fields => arrayNormLoop rest (.obj fields :: acc) (n + 1)
    | _ => .error (chars "Array contains non-object item")

/-- `normalize_to_jsonl` from src/normalize_and_move.py: the emitted staging
lines (as re-parsed values; `json.dumps` then `json.loads` round-trips) and
the record count, or the validation error. -/
def normalize_to_jsonl : SubmissionBody → Except Str (List JValue × Nat)
  | .jsonl lines => jsonlNormLoop lines [] 0
  | .single none => .error (chars "Invalid JSON")
  | .single (some d) =>
    match d with
    | .obj fields => .ok ([.obj fields], 1)
    | .arr items => arrayNormLoop items [] 0
    | _ => .error (chars "Top-level JSON must be object or array")

/-- Python `v[k]` on a parsed JSON value: `none` models the `KeyError` of a
missing key and the `TypeError` of indexing a non-dict, both caught by
`extract_keys`. -/
def pyIndex (v : JValue) (k : Str) : Option JValue :=
  match v with
  | .obj fields => lookupField k fields
  | _ => none

/-- `first_record_from_jsonl` from src/normalize_and_move.py, applied to the
staging file just written: its first line, or the empty-file error. -/
def firstRecord : List JValue → Except Str JValue
  | [] => .error (chars "Empty JSONL file")
  | r :: _ => .ok r

/-- `extract_keys` from src/normalize_and_move.py: require
`important.category` and `important.sub_category`; `title` is optional
(`None` when missing). -/
def extract_keys (first : JValue) : Except Str (JValue × JValue × JValue) :=
  match pyIndex first (chars "important") with
  | none => .error (chars "Missing important.category or important.sub_category")
  | some imp =>
    match pyIndex imp (chars "category") with
    | none => .error (chars "Missing important.category or important.sub_category")
    | some category =>
      match pyIndex imp (chars "sub_category") with
      | none => .error (chars "Missing important.category or important.sub_category")
      | some sub_category =>
        .ok (category, sub_category, (pyIndex imp (chars "title")).getD JValue.null)

/-- `DATASETS / category / sub_category`: joining a path with a non-string
component raises `TypeError` (caught by `main`'s handler). -/
def pathComponent : JValue → Except Str Str
  | .str s => .ok s
  | _ => .error (chars "TypeError: argument should be a str")

/-- `to_slug(title)` on the raw title value: a truthy non-string has no
`.lower()` and raises `AttributeError` (caught by `main`'s handler). -/
def slugOfTitle : JValue → Except Str Str
  | .str s => .ok (to_slug s)
  | _ => .error (chars "AttributeError: lower")

/-- Everything `main` (src/normalize_and_move.py) finds: the argument count
check outcome, the submission's name and content, and the current dataset
store listing per (category, sub_category) folder. -/
structure NormEnv where
  argcOk : Bool
  srcName : Str
  body : SubmissionBody
  folders : Str → Str → List Str

/-- Observable outcome of one Normalizer run: exit code, the dataset file
committed to the store (category, sub_category, file name, lines), the
manifest entry appended (file name, record count), and the quarantine file
name in the errors area. -/
structure NormResult where
  exitCode : Nat
  dataset : Option (Str × Str × Str × List JValue)
  manifest : Option (Str × Nat)
  failedName : Option Str

/-- `to_slug(title) if title else to_slug(f"{category}_{sub_category}")`
from `main` (src/normalize_and_move.py). -/
def chooseSlug (title : JValue) (cat sub : Str) : Except Str Str :=
  if truthy title then slugOfTitle title
  else .ok (to_slug (cat ++ '_' :: sub))

/-- Steps 1-5 of `main` (src/normalize_and_move.py) up to choosing the
destination path, in source order: normalize, read first record, extract
keys, build the destination folder path, compute slug, version. -/
def normPipeline (env : NormEnv) : Except Str (Str × Str × Str × List JValue × Nat) := do
  let r1 ← normalize_to_jsonl env.body
  let first ← firstRecord r1.1
  let keys ← extract_keys first
  let cat ← pathComponent keys.1
  let sub ← pathComponent keys.2.1
  let base_slug ← chooseSlug keys.2.2 cat sub
  let destName := next_version_path (env.folders cat sub) base_slug
  pure (cat, sub, destName, r1.1, r1.2)

/-- `main` from src/normalize_and_move.py: usage errors exit 1 before any
processing; a successful pipeline commits the dataset file and appends the
manifest entry and exits 0; any processing exception quarantines the
submission as `<name>.failed` and exits 2. -/
def normMain (env : NormEnv) : NormResult :=
  if !env.argcOk then
    { exitCode := 1, dataset := none, manifest := none, failedName := none }
  else
    match normPipeline env with
    | .ok (cat, sub, name, lines, count) =>
      { exitCode := 0, dataset := some (cat, sub, name, lines),
        manifest := some (name, count), failedName := none }
    | .error _ =>
      { exitCode := 2, dataset := none, manifest := none,
        failedName := some (env.srcName ++ chars ".failed") }

/-- Modelled from the claim's words, for refutation only (claim C6): the
version is one greater than the maximum `N` among existing files named
exactly `slug_v<N>.jsonl` for that exact slug, 1 when none exist. -/
def exactVersionOf (slug name : Str) : Option Nat :=
  let mid := (name.drop (slug.length + 2)).take (name.length - 6 - (slug.length + 2))
  if decide ((slug ++ chars "_v") <+: name) && decide ((chars ".jsonl") <:+ name)
      && decide (slug.length + 8 ≤ name.length) && !mid.isEmpty
      && mid.all Char.isDigit then
    some (digitsVal mid)
  else none

/-- Modelled from the claim's words, for refutation only (claim C6): the
destination file name the claim says `next_version_path` chooses. -/
def claimNextVersionPath (folder : List Str) (slug : Str) : Str :=
  let versions := folder.filterMap (exactVersionOf slug)
  let v := if versions.isEmpty then 1 else listMaxNat versions + 1
  slug ++ chars "_v" ++ natChars v ++ chars ".jsonl"

end NormalizeAndMove

/-- A file in the dataset store: the directory components under `datasets/`
and the file name. -/
structure DataFile where
  dirs : List Str
  name : Str

/-- `Path(name).stem` (CPython): the name without its last suffix, where a
suffix is a dot at position `0 < i < len - 1` onward. -/
def pyStem (name : Str) : Str :=
  match name.reverse.findIdx? fun c => c = '.' with
  | none => name
  | some j =>
    let i := name.length - 1 - j
    if 0 < i ∧ i < name.length - 1 then name.take i else name

namespace Watcher

/-- `EXCLUDE_NAMES` from src/watcher.py. -/
def EXCLUDE_NAMES : List Str := [chars "MANIFEST.jsonl"]

/-- `ingest_pending` from src/watcher.py, as the list of dataset files it
dispatches to the Ingestor: every `*.jsonl` under the store except the audit
manifest and except stems having a `.done` or `.lock` marker. -/
def ingest_pending (files : List DataFile) (doneStems lockStems : List Str) :
    List DataFile :=
  files.filter fun f =>
    decide ((chars ".jsonl") <:+ f.name) && !decide (f.name ∈ EXCLUDE_NAMES)
      && !decide (pyStem f.name ∈ doneStems) && !decide (pyStem f.name ∈ lockStems)

end Watcher

namespace IngestToMilvus

/-- Checkpoint marker file name for a dataset file
(`checkpoints_root / f"{stem}.done"`, shared by src/ingest_to_milvus.py and
src/watcher.py). -/
def doneMarkerName (f : DataFile) : Str := pyStem f.name ++ chars ".done"

/-- Lock marker file name (`checkpoints_root / f"{stem}.lock"`). -/
def lockMarkerName (f : DataFile) : Str := pyStem f.name ++ chars ".lock"

/-- The `IngestEnv` a direct `main` run on dataset file `p` sees when the
checkpoint directory holds `.done` markers for `doneStems` and `.lock`
markers for `lockStems`. -/
def envFor (doneStems lockStems : List Str) (p : DataFile)
    (fileEx collEx : Bool) (lines : List LineContent) (cfg : IngestConfig)
    (failAt : Option FailPoint) : IngestEnv :=
  { fileExists := fileEx, collectionExists := collEx,
    doneExists := decide (pyStem p.name ∈ doneStems),
    lockExists := decide (pyStem p.name ∈ lockStems),
    lines := lines, cfg := cfg, failAt := failAt }

/-- Sizes of the embedding calls in a trace, in order. -/
def embedSizes (effs : List Effect) : List Nat :=
  effs.filterMap fun e => match e with | .embed ts => some ts.length | _ => none

/-- Sizes of the upsert batches in a trace, in order. -/
def insertSizes (effs : List Effect) : List Nat :=
  effs.filterMap fun e => match e with | .insert rows => some rows.length | _ => none

/-- The batch sizes the spec predicts for `n` records at batch size `b`:
`n / b` full batches then the remainder when nonzero. -/
def batchSizes (b n : Nat) : List Nat :=
  List.replicate (n / b) b ++ (if n % b = 0 then [] else [n % b])

end IngestToMilvus

/-- Does the string contain two consecutive space characters? -/
def hasDoubleSpace : Str → Bool
  | c1 :: c2 :: rest => (c1 = ' ' && c2 = ' ') || hasDoubleSpace (c2 :: rest)
  | _ => false

/-- Does the string start with a whitespace character? -/
def headIsWS (s : Str) : Bool :=
  match s.head? with
  | some c => isPyWS c
  | none => false

/-- Does the string end with a whitespace character? -/
def lastIsWS (s : Str) : Bool :=
  match s.getLast? with
  | some c => isPyWS c
  | none => false

/-- A fragment is clean when it has no internal double space and neither
starts nor ends with whitespace. -/
def cleanFrag (s : Str) : Bool := !hasDoubleSpace s && !headIsWS s && !lastIsWS s

namespace EmbeddingsPreview

/-- The nonempty fragments `build_embedding_text` joins (the generator
`p for p in parts if p` of src/embeddings_preview.py). -/
def fragments (r : JValue) : List Str :=
  (FIELDS.map fun p => to_text (get_in r p)).filter fun p => !p.isEmpty

end EmbeddingsPreview

namespace IngestToMilvus

/-- Does the trace contain any locked-phase work (embedding, insert, lock
handling or checkpoint write)? -/
def touchesLockedPhase (effs : List Effect) : Bool :=
  effs.any fun e =>
    match e with
    | .embed _ => true
    | .insert _ => true
    | .createLock => true
    | .writeCheckpoint _ _ _ _ => true
    | .removeLock => true
    | _ => false

end IngestToMilvus

/-- The list split into consecutive chunks of `b` elements (the last chunk
possibly shorter); for `b = 0` it degenerates to singleton chunks. -/
def chunks (b : Nat) : List α → List (List α)
  | [] => []
  | x :: xs => (x :: xs.take (b - 1)) :: chunks b (xs.drop (b - 1))
termination_by l => l.length
decreasing_by
  simp
  omega

/-- Record with only `important.category` and `important.risk`: the middle
five fragments are empty. -/
def recMissingMiddle : JValue :=
  .obj [(chars "important",
    .obj [(chars "category", .str (chars "a")), (chars "risk", .str (chars "b"))])]

/-- Record with all seven extracted fields present and nonempty. -/
def recAllFields : JValue :=
  .obj [(chars "important",
    .obj [ (chars "title", .str (chars "Sample X")),
           (chars "category", .str (chars "malware")),
           (chars "sub_category", .str (chars "ransomware")),
           (chars "tags", .arr [.str (chars "a"), .str (chars "b")]),
           (chars "targets", .obj [ (chars "os", .arr [.str (chars "linux")]),
                                    (chars "system", .arr [.str (chars "erp")]) ]),
           (chars "risk", .str (chars "high")) ])]

/-- A concrete ingest configuration for witnesses. -/
def cfgEx : IngestToMilvus.IngestConfig :=
  { batch_size := 2, collection_name := chars "attacks_v2",
    model_name := chars "all-MiniLM-L6-v2", dim := 384 }

/-- Environment where a checkpoint exists but the collection does not:
the gate will skip, yet `ensure_collection` has already run. -/
def envSkipC2 : IngestToMilvus.IngestEnv :=
  { fileExists := true, collectionExists := false, doneExists := true,
    lockExists := false, lines := [.record recAllFields], cfg := cfgEx, failAt := none }

/-- Environment whose model load raises inside the locked phase. -/
def envFailC5 : IngestToMilvus.IngestEnv :=
  { fileExists := true, collectionExists := true, doneExists := false,
    lockExists := false, lines := [.record recAllFields], cfg := cfgEx,
    failAt := some .modelLoad }

/-- Environment with five parseable records (plus a blank and a malformed
line) at batch size 2. -/
def envBatchC9 : IngestToMilvus.IngestEnv :=
  { fileExists := true, collectionExists := true, doneExists := false,
    lockExists := false,
    lines := [.record recAllFields, .blank, .record (.obj []), .malformed,
              .record (.obj []), .record (.obj []), .record recMissingMiddle],
    cfg := cfgEx, failAt := none }

/-- Environment whose dataset file consists only of malformed and blank
lines. -/
def envMalformedC10 : IngestToMilvus.IngestEnv :=
  { fileExists := true, collectionExists := true, doneExists := false,
    lockExists := false, lines := [.malformed, .blank, .malformed],
    cfg := cfgEx, failAt := none }

/-- Dataset file `datasets/malware/ransomware/x_v1.jsonl`. -/
def dfMalware : DataFile := { dirs := [chars "malware", chars "ransomware"], name := chars "x_v1.jsonl" }

/-- Dataset file `datasets/phishing/email/x_v1.jsonl`: same stem as
`dfMalware`, different folder. -/
def dfPhishing : DataFile := { dirs := [chars "phishing", chars "email"], name := chars "x_v1.jsonl" }

/-- Normalizer environment: a submission holding one malformed JSONL line. -/
def envBadC7 : NormalizeAndMove.NormEnv :=
  { argcOk := true, srcName := chars "bad.jsonl",
    body := .jsonl [.record (.obj []), .malformed], folders := fun _ _ => [] }

/-- The single JSON object of the C8 witness submission. -/
def recC8fields : List (Str × JValue) :=
  [(chars "important",
    .obj [ (chars "category", .str (chars "malware")),
           (chars "sub_category", .str (chars "ransomware")),
           (chars "title", .str (chars "Sample X")) ])]

/-- Normalizer environment: a valid single-object submission into an empty
dataset store. -/
def envC8 : NormalizeAndMove.NormEnv :=
  { argcOk := true, srcName := chars "sample.json",
    body := .single (some (.obj recC8fields)), folders := fun _ _ => [] }

/-! ### String lemmas for the TextBuilder claims -/

lemma dropWhile_head_false {p : Char → Bool} :
    ∀ (l : Str) (c : Char), (l.dropWhile p).head? = some c → p c = false := by
  intro l
  induction l with
  | nil => intro c h; simp [List.dropWhile] at h
  | cons x xs ih =>
    intro c h
    rw [List.dropWhile_cons] at h
    split at h
    · exact ih c h
    · next hx =>
      simp at h
      rw [← h]
      simpa using hx

lemma dropWhile_getLast?_eq {p : Char → Bool} :
    ∀ (l : Str), l.dropWhile p ≠ [] → (l.dropWhile p).getLast? = l.getLast? := by
  intro l
  induction l with
  | nil => intro h; simp [List.dropWhile] at h
  | cons x xs ih =>
    intro h
    rw [List.dropWhile_cons] at h ⊢
    split
    · next hx =>
      rw [if_pos hx] at h
      have hxs : xs ≠ [] := by
        intro he
        rw [he] at h
        simp [List.dropWhile] at h
      rw [ih h]
      cases xs with
      | nil => exact absurd rfl hxs
      | cons y ys => simp [List.getLast?_cons_cons]
    · rfl

lemma head_some_dropWhile_eq {p : Char → Bool} (l : Str) (c : Char)
    (hc : l.head? = some c) (hp : p c = false) : l.dropWhile p = l := by
  cases l with
  | nil => simp at hc
  | cons x xs =>
    simp at hc
    rw [List.dropWhile_cons, if_neg]
    rw [← hc] at hp
    simp [hp]

lemma pyStrip_headIsWS (s : Str) : headIsWS (pyStrip s) = false := by
  unfold pyStrip headIsWS
  rw [List.head?_reverse]
  cases hX : ((s.dropWhile isPyWS).reverse.dropWhile isPyWS).getLast? with
  | none => rfl
  | some c =>
    have hne : (s.dropWhile isPyWS).reverse.dropWhile isPyWS ≠ [] := by
      intro h
      rw [h] at hX
      simp at hX
    rw [dropWhile_getLast?_eq _ hne, List.getLast?_reverse] at hX
    have := dropWhile_head_false (p := isPyWS) s c hX
    simp [this]

lemma pyStrip_lastIsWS (s : Str) : lastIsWS (pyStrip s) = false := by
  unfold pyStrip lastIsWS
  rw [List.getLast?_reverse]
  cases hX : ((s.dropWhile isPyWS).reverse.dropWhile isPyWS).head? with
  | none => rfl
  | some c =>
    have := dropWhile_head_false (p := isPyWS) (s.dropWhile isPyWS).reverse c hX
    simp [this]

lemma pyStrip_eq_self (s : Str) (h1 : headIsWS s = false) (h2 : lastIsWS s = false) :
    pyStrip s = s := by
  unfold pyStrip
  have hfwd : s.dropWhile isPyWS = s := by
    cases s with
    | nil => rfl
    | cons x xs =>
      refine head_some_dropWhile_eq _ x rfl ?_
      simpa [headIsWS] using h1
  rw [hfwd]
  have hrev : s.reverse.dropWhile isPyWS = s.reverse := by
    cases hh : s.reverse.head? with
    | none =>
      have : s.reverse = [] := by
        cases hs : s.reverse with
        | nil => rfl
        | cons y ys => rw [hs] at hh; simp at hh
      rw [this]
      rfl
    | some c =>
      refine head_some_dropWhile_eq _ c hh ?_
      rw [List.head?_reverse] at hh
      unfold lastIsWS at h2
      rw [hh] at h2
      exact h2
  rw [hrev, List.reverse_reverse]

lemma hasDoubleSpace_append (a b : Str) :
    hasDoubleSpace (a ++ b)
      = (hasDoubleSpace a || hasDoubleSpace b
          || (decide (a.getLast? = some ' ') && decide (b.head? = some ' '))) := by
  induction a with
  | nil => simp [hasDoubleSpace]
  | cons x xs ih =>
    cases xs with
    | nil =>
      cases b with
      | nil => simp [hasDoubleSpace]
      | cons y ys =>
        simp only [List.cons_append, List.nil_append, hasDoubleSpace]
        simp [Bool.or_comm]
    | cons z zs =>
      have hrw : (x :: z :: zs) ++ b = x :: ((z :: zs) ++ b) := rfl
      rw [hrw]
      have hcons : (z :: zs) ++ b = z :: (zs ++ b) := rfl
      conv =>
        lhs
        rw [hcons]
      show ((x = ' ' && z = ' ') || hasDoubleSpace (z :: (zs ++ b))) = _
      rw [← hcons, ih]
      simp [hasDoubleSpace, List.getLast?_cons_cons, Bool.or_assoc]

lemma cleanFrag_split (s : Str) (h : cleanFrag s = true) :
    hasDoubleSpace s = false ∧ headIsWS s = false ∧ lastIsWS s = false := by
  simp [cleanFrag] at h
  exact ⟨h.1.1, h.1.2, h.2⟩

lemma exists_getLast?_of_ne_nil : ∀ (l : Str), l ≠ [] → ∃ c, l.getLast? = some c := by
  intro l h
  induction l with
  | nil => exact absurd rfl h
  | cons x xs ih =>
    cases xs with
    | nil => exact ⟨x, rfl⟩
    | cons y ys =>
      obtain ⟨c, hc⟩ := ih (by simp)
      exact ⟨c, by rw [List.getLast?_cons_cons]; exact hc⟩

lemma getLast?_append_right {α : Type _} : ∀ (a b : List α), b ≠ [] → (a ++ b).getLast? = b.getLast? := by
  intro a
  induction a with
  | nil => intro b _; simp
  | cons x xs ih =>
    intro b hb
    have hsh : (x :: xs) ++ b = x :: (xs ++ b) := rfl
    rw [hsh]
    cases hxb : xs ++ b with
    | nil =>
      simp at hxb
      exact absurd hxb.2 hb
    | cons c cs =>
      rw [List.getLast?_cons_cons, ← hxb]
      exact ih b hb

lemma joinSp_clean : ∀ ps : List Str,
    (∀ p ∈ ps, p ≠ [] ∧ cleanFrag p = true) →
    cleanFrag (joinSp ps) = true ∧ (ps ≠ [] → joinSp ps ≠ []) := by
  intro ps
  induction ps with
  | nil => intro _; exact ⟨rfl, fun h => absurd rfl h⟩
  | cons p qs ih =>
    intro h
    obtain ⟨hpne, hpc⟩ := h p (List.mem_cons_self p qs)
    cases qs with
    | nil =>
      refine ⟨by simpa [joinSp] using hpc, fun _ => by simpa [joinSp] using hpne⟩
    | cons q rs =>
      obtain ⟨hcr, hner⟩ := ih (fun x hx => h x (List.mem_cons_of_mem _ hx))
      have hrne : joinSp (q :: rs) ≠ [] := hner (by simp)
      obtain ⟨hds_p, hh_p, hl_p⟩ := cleanFrag_split p hpc
      obtain ⟨hds_r, hh_r, hl_r⟩ := cleanFrag_split _ hcr
      have hj : joinSp (p :: q :: rs) = p ++ ' ' :: joinSp (q :: rs) := rfl
      obtain ⟨r0, rrest, hr0⟩ : ∃ r0 rrest, joinSp (q :: rs) = r0 :: rrest := by
        cases hjr : joinSp (q :: rs) with
        | nil => exact absurd hjr hrne
        | cons r0 rrest => exact ⟨r0, rrest, rfl⟩
      have hr0ws : isPyWS r0 = false := by
        have h2 := hh_r
        rw [hr0] at h2
        simpa [headIsWS] using h2
      have hr0sp : (r0 = ' ') = False := by
        by_cases hsp : r0 = ' '
        · rw [hsp] at hr0ws; simp [isPyWS] at hr0ws
        · simp [hsp]
      obtain ⟨pl, hpl⟩ := exists_getLast?_of_ne_nil p hpne
      have hplws : isPyWS pl = false := by
        unfold lastIsWS at hl_p
        rw [hpl] at hl_p
        exact hl_p
      have hplsp : pl ≠ ' ' := by
        intro hsp
        rw [hsp] at hplws
        simp [isPyWS] at hplws
      have c1 : hasDoubleSpace (joinSp (p :: q :: rs)) = false := by
        rw [hj, hasDoubleSpace_append]
        have hb : hasDoubleSpace (' ' :: joinSp (q :: rs)) = false := by
          rw [hr0]
          show ((' ' = ' ' && r0 = ' ') || hasDoubleSpace (r0 :: rrest)) = false
          rw [hr0] at hds_r
          simp [hds_r, hr0sp]
        simp [hds_p, hb, hpl, hplsp]
      have c2 : headIsWS (joinSp (p :: q :: rs)) = false := by
        rw [hj]
        cases p with
        | nil => exact absurd rfl hpne
        | cons p0 pt =>
          have hsh : (p0 :: pt) ++ ' ' :: joinSp (q :: rs) = p0 :: (pt ++ ' ' :: joinSp (q :: rs)) := rfl
          rw [hsh]
          simpa [headIsWS] using hh_p
      have c3 : lastIsWS (joinSp (p :: q :: rs)) = false := by
        rw [hj]
        unfold lastIsWS
        rw [getLast?_append_right p _ (by simp), hr0, List.getLast?_cons_cons]
        rw [hr0] at hl_r
        unfold lastIsWS at hl_r
        exact hl_r
      refine ⟨by simp [cleanFrag, c1, c2, c3], fun _ => ?_⟩
      rw [hj]
      simp [hpne]

/-- C1 (corrected): the preview tool's and the real-embeddings tool's
`build_embedding_text` compute the same function on every record, and the
Ingestor's version agrees with them on any record whose seven extracted
fragments are all nonempty; it is NOT the same function in general (see the
counterexample), because the Ingestor joins empty fragments instead of
dropping them. -/
theorem C1_text_builders_agree : ∀ r : JValue,
    EmbeddingsPreview.build_embedding_text r = EmbeddingsReal.build_embedding_text r
    ∧ ((∀ p ∈ IngestToMilvus.FIELDS,
          IngestToMilvus.to_text (IngestToMilvus.get_in r p) ≠ []) →
        IngestToMilvus.build_embedding_text r = EmbeddingsPreview.build_embedding_text r) := by
  intro r
  refine ⟨rfl, ?_⟩
  intro h
  have hfe : (IngestToMilvus.FIELDS.map fun p =>
        IngestToMilvus.to_text (IngestToMilvus.get_in r p)).filter (fun p => !p.isEmpty)
      = IngestToMilvus.FIELDS.map fun p => IngestToMilvus.to_text (IngestToMilvus.get_in r p) := by
    apply List.filter_eq_self.mpr
    intro a ha
    obtain ⟨p, hp, rfl⟩ := List.mem_map.mp ha
    have hne := h p hp
    simpa [List.isEmpty_iff] using hne
  have hpv : EmbeddingsPreview.build_embedding_text r
      = pyStrip (joinSp ((IngestToMilvus.FIELDS.map fun p =>
          IngestToMilvus.to_text (IngestToMilvus.get_in r p)).filter fun p => !p.isEmpty)) := rfl
  rw [hpv, hfe]
  rfl

/-- C1 witness: a record with all seven fields present satisfies the
all-fragments-nonempty hypothesis, and there all three builders agree. -/
theorem C1_witness :
    (∀ p ∈ IngestToMilvus.FIELDS,
        IngestToMilvus.to_text (IngestToMilvus.get_in recAllFields p) ≠ [])
    ∧ IngestToMilvus.build_embedding_text recAllFields
        = EmbeddingsPreview.build_embedding_text recAllFields := by
  have hh : ∀ p ∈ IngestToMilvus.FIELDS,
      IngestToMilvus.to_text (IngestToMilvus.get_in recAllFields p) ≠ [] := by decide
  exact ⟨hh, (C1_text_builders_agree recAllFields).2 hh⟩

/-- C1 counterexample: on a record having only `important.category` and
`important.risk`, the Ingestor's builder keeps the five empty fragments and
produces "a␣␣␣␣␣b" while the preview tool produces "a␣b". -/
theorem C1_counterexample :
    IngestToMilvus.build_embedding_text recMissingMiddle
      ≠ EmbeddingsPreview.build_embedding_text recMissingMiddle := by decide

/-- C4 (corrected): the preview and real-embeddings builders never produce
leading or trailing whitespace, and produce no two consecutive spaces
provided each nonempty fragment is itself clean; the Ingestor's builder is
excluded (see the counterexample: it produces consecutive spaces whenever an
empty fragment sits between nonempty ones). -/
theorem C4_text_builder_whitespace : ∀ r : JValue,
    headIsWS (EmbeddingsPreview.build_embedding_text r) = false
    ∧ lastIsWS (EmbeddingsPreview.build_embedding_text r) = false
    ∧ headIsWS (EmbeddingsReal.build_embedding_text r) = false
    ∧ lastIsWS (EmbeddingsReal.build_embedding_text r) = false
    ∧ ((∀ p ∈ EmbeddingsPreview.fragments r, cleanFrag p = true) →
        hasDoubleSpace (EmbeddingsPreview.build_embedding_text r) = false
        ∧ hasDoubleSpace (EmbeddingsReal.build_embedding_text r) = false) := by
  intro r
  refine ⟨pyStrip_headIsWS _, pyStrip_lastIsWS _, pyStrip_headIsWS _, pyStrip_lastIsWS _, ?_⟩
  intro hcl
  have hfr : ∀ p ∈ EmbeddingsPreview.fragments r, p ≠ [] ∧ cleanFrag p = true := by
    intro p hp
    refine ⟨?_, hcl p hp⟩
    have hmem := List.of_mem_filter hp
    intro he
    rw [he] at hmem
    simp at hmem
  obtain ⟨hclean, _⟩ := joinSp_clean _ hfr
  obtain ⟨hds, hh, hl⟩ := cleanFrag_split _ hclean
  have hb : EmbeddingsPreview.build_embedding_text r
      = pyStrip (joinSp (EmbeddingsPreview.fragments r)) := rfl
  have hreal : EmbeddingsReal.build_embedding_text r
      = EmbeddingsPreview.build_embedding_text r := rfl
  rw [hreal, hb, pyStrip_eq_self _ hh hl]
  exact ⟨hds, hds⟩

/-- C4 witness: the full record's fragments are clean, and the preview
output indeed has no double space. -/
theorem C4_witness :
    (∀ p ∈ EmbeddingsPreview.fragments recAllFields, cleanFrag p = true)
    ∧ hasDoubleSpace (EmbeddingsPreview.build_embedding_text recAllFields) = false := by
  have hcl : ∀ p ∈ EmbeddingsPreview.fragments recAllFields, cleanFrag p = true := by decide
  exact ⟨hcl, ((C4_text_builder_whitespace recAllFields).2.2.2.2 hcl).1⟩

/-- C4 counterexample: the Ingestor's builder output for a record missing
the middle fields contains two consecutive spaces. -/
theorem C4_counterexample :
    hasDoubleSpace (IngestToMilvus.build_embedding_text recMissingMiddle) = true := by decide

/-! ### Ingestor gate, lock and marker lemmas -/

lemma getLast?_cons_of_ne_nil {α : Type _} (x : α) (l : List α) (h : l ≠ []) :
    (x :: l).getLast? = l.getLast? := by
  cases l with
  | nil => exact absurd rfl h
  | cons y ys => rw [List.getLast?_cons_cons]

namespace IngestToMilvus

lemma ingest_gate_skip (env : IngestEnv) (hf : env.fileExists = true)
    (hgate : env.doneExists = true ∨ env.lockExists = true) :
    (ingestMain env).effects = Effect.connect :: ensureCollectionEffects env.collectionExists
    ∧ (ingestMain env).raised = false
    ∧ (ingestMain env).exited = none
    ∧ (ingestMain env).doneAfter = env.doneExists
    ∧ (ingestMain env).lockAfter = env.lockExists := by
  rcases hgate with hd | hl
  · simp [ingestMain, hf, hd]
  · by_cases hd : env.doneExists <;> simp [ingestMain, hf, hd, hl]

lemma touches_pre (c : Bool) :
    touchesLockedPhase (Effect.connect :: ensureCollectionEffects c) = false := by
  cases c <;> rfl

lemma raise_trace_last (ens effs : List Effect) :
    (Effect.connect :: (ens ++ Effect.createLock :: (effs ++ [Effect.removeLock]))).getLast?
      = some Effect.removeLock := by
  rw [getLast?_cons_of_ne_nil _ _ (by intro h; simp at h)]
  rw [getLast?_append_right _ _ (by intro h; simp at h)]
  rw [getLast?_cons_of_ne_nil _ _ (by intro h; simp at h)]
  exact List.getLast?_concat _

/-- C2 (corrected): when a checkpoint or a lock exists the Ingestor performs
no embedding, no insert, no lock creation and no checkpoint write, and the
markers are unchanged — but only after it has already connected and run
`ensure_collection`, so collection creation and index creation are NOT
prevented (the claim's "without touching the vector store" fails, see the
counterexample). -/
theorem C2_gate_skips_after_store_touch : ∀ env : IngestEnv,
    env.fileExists = true → (env.doneExists = true ∨ env.lockExists = true) →
    (ingestMain env).effects = Effect.connect :: ensureCollectionEffects env.collectionExists
    ∧ touchesLockedPhase (ingestMain env).effects = false
    ∧ (ingestMain env).raised = false
    ∧ (ingestMain env).doneAfter = env.doneExists
    ∧ (ingestMain env).lockAfter = env.lockExists := by
  intro env hf hg
  obtain ⟨h1, h2, _, h4, h5⟩ := ingest_gate_skip env hf hg
  refine ⟨h1, ?_, h2, h4, h5⟩
  rw [h1]
  exact touches_pre _

/-- C2 witness: concrete skipped run with a checkpoint present. -/
theorem C2_witness :
    envSkipC2.doneExists = true
    ∧ touchesLockedPhase (ingestMain envSkipC2).effects = false :=
  ⟨rfl, (C2_gate_skips_after_store_touch envSkipC2 rfl (Or.inl rfl)).2.1⟩

/-- C2 counterexample: with a checkpoint present and the collection absent,
the skipped run still connects, creates the collection and attempts index
creation before the gate. -/
theorem C2_counterexample :
    envSkipC2.doneExists = true
    ∧ (ingestMain envSkipC2).effects
        = [.connect, .createCollection, .createIndexAttempt] :=
  ⟨rfl, rfl⟩

/-- C5 (confirmed): whenever an Ingestor run raises (any exception in the
locked phase: model load, embedding, insert, scalar extraction or checkpoint
write), the lock removal is the final effect before propagation, no lock
remains and no checkpoint exists afterwards. -/
theorem C5_lock_released_on_exception : ∀ env : IngestEnv,
    (ingestMain env).raised = true →
    (ingestMain env).lockAfter = false
    ∧ (ingestMain env).doneAfter = false
    ∧ (ingestMain env).effects.getLast? = some Effect.removeLock := by
  intro env hr
  by_cases hf : env.fileExists
  case neg => simp [ingestMain, hf] at hr
  case pos =>
    by_cases hd : env.doneExists
    case pos => simp [ingestMain, hf, hd] at hr
    case neg =>
    by_cases hl : env.lockExists
    case pos => simp [ingestMain, hf, hd, hl] at hr
    case neg =>
    by_cases hm : env.failAt = some FailPoint.modelLoad
    case pos =>
      refine ⟨?_, ?_, ?_⟩ <;> simp [ingestMain, hf, hd, hl, hm]
      exact raise_trace_last _ []
    case neg =>
      cases hout : ingestLoop env.cfg.batch_size env.failAt (stream_records env.lines) [] 0 with
      | mk effs raised =>
        cases raised
        case true =>
          refine ⟨?_, ?_, ?_⟩ <;> simp [ingestMain, hf, hd, hl, hm, hout]
          exact raise_trace_last _ _
        case false =>
          by_cases hc : env.failAt = some FailPoint.checkpoint
          case pos =>
            refine ⟨?_, ?_, ?_⟩ <;> simp [ingestMain, hf, hd, hl, hm, hc, hout]
            exact raise_trace_last _ _
          case neg =>
            simp [ingestMain, hf, hd, hl, hm, hc, hout] at hr

/-- C5 witness: a model-load failure raises; the lock is gone and no
checkpoint exists. -/
theorem C5_witness :
    (ingestMain envFailC5).raised = true
    ∧ (ingestMain envFailC5).lockAfter = false
    ∧ (ingestMain envFailC5).doneAfter = false := by
  have h := C5_lock_released_on_exception envFailC5 rfl
  exact ⟨rfl, h.1, h.2.1⟩

/-- C3 (confirmed): checkpoint and lock marker names derive from the file
stem only, so two dataset files with equal stems in different folders share
their markers; once the shared stem is checkpointed (or locked), the
Watcher's sweep does not dispatch the other file and a direct Ingestor run
on it performs no locked-phase work. -/
theorem C3_markers_by_stem_only : ∀ (p q : DataFile) (doneStems lockStems : List Str)
    (files : List DataFile) (fileEx collEx : Bool) (lines : List LineContent)
    (cfg : IngestConfig),
    pyStem p.name = pyStem q.name →
    (doneMarkerName p = doneMarkerName q ∧ lockMarkerName p = lockMarkerName q)
    ∧ ((pyStem p.name ∈ doneStems ∨ pyStem p.name ∈ lockStems) →
        q ∉ Watcher.ingest_pending files doneStems lockStems
        ∧ touchesLockedPhase
            (ingestMain (envFor doneStems lockStems q fileEx collEx lines cfg none)).effects
          = false) := by
  intro p q doneStems lockStems files fileEx collEx lines cfg hstem
  constructor
  · exact ⟨by simp [doneMarkerName, hstem], by simp [lockMarkerName, hstem]⟩
  · intro hmark
    rw [hstem] at hmark
    constructor
    · intro hq
      obtain ⟨_, hcond⟩ := List.mem_filter.mp hq
      simp only [Bool.and_eq_true, decide_eq_true_eq, Bool.not_eq_true',
        decide_eq_false_iff_not] at hcond
      rcases hmark with h | h
      · exact hcond.1.2 h
      · exact hcond.2 h
    · by_cases hf : fileEx
      case neg =>
        have he : (ingestMain (envFor doneStems lockStems q fileEx collEx lines cfg none)).effects = [] := by
          simp [ingestMain, envFor, hf]
        rw [he]
        rfl
      case pos =>
        rcases hmark with h | h
        · have hd : (envFor doneStems lockStems q fileEx collEx lines cfg none).doneExists = true := by
            simp [envFor, h]
          obtain ⟨h1, _⟩ := ingest_gate_skip _ (by simp [envFor, hf]) (Or.inl hd)
          rw [h1]
          exact touches_pre _
        · have hl : (envFor doneStems lockStems q fileEx collEx lines cfg none).lockExists = true := by
            simp [envFor, h]
          obtain ⟨h1, _⟩ := ingest_gate_skip _ (by simp [envFor, hf]) (Or.inr hl)
          rw [h1]
          exact touches_pre _

/-- C3 witness: `datasets/malware/ransomware/x_v1.jsonl` and
`datasets/phishing/email/x_v1.jsonl` share the stem `x_v1`; with that stem
checkpointed, the sweep skips the second file and a direct run touches no
locked-phase work. -/
theorem C3_witness :
    pyStem dfMalware.name = pyStem dfPhishing.name
    ∧ dfPhishing ∉ Watcher.ingest_pending [dfMalware, dfPhishing] [pyStem dfMalware.name] []
    ∧ touchesLockedPhase
        (ingestMain (envFor [pyStem dfMalware.name] [] dfPhishing true true [] cfgEx none)).effects
      = false := by
  have h := C3_markers_by_stem_only dfMalware dfPhishing [pyStem dfMalware.name] []
    [dfMalware, dfPhishing] true true [] cfgEx rfl
  have hmem : pyStem dfMalware.name ∈ [pyStem dfMalware.name] := by simp
  exact ⟨rfl, (h.2 (Or.inl hmem)).1, (h.2 (Or.inl hmem)).2⟩

end IngestToMilvus

/-! ### Batching lemmas -/

lemma chunks_singleton {α : Type _} (b : Nat) (l : List α) (h0 : l ≠ []) (hlt : l.length ≤ b) :
    chunks b l = [l] := by
  cases l with
  | nil => exact absurd rfl h0
  | cons x xs =>
    rw [chunks]
    have h1 : xs.take (b - 1) = xs := List.take_of_length_le (by simp at hlt; omega)
    have h2 : xs.drop (b - 1) = [] := List.drop_eq_nil_of_le (by simp at hlt; omega)
    rw [h1, h2, chunks]

lemma chunks_cons_full {α : Type _} (b : Nat) (hb : 1 ≤ b) (c rest : List α) (hc : c.length = b) :
    chunks b (c ++ rest) = c :: chunks b rest := by
  cases c with
  | nil =>
    simp at hc
    omega
  | cons x xs =>
    have hxs : xs.length = b - 1 := by simp at hc; omega
    show chunks b (x :: (xs ++ rest)) = _
    rw [chunks, List.take_left' hxs, List.drop_left' hxs]

lemma batchSizes_step (b n : Nat) (hb : 1 ≤ b) (hn : b ≤ n) :
    IngestToMilvus.batchSizes b n = b :: IngestToMilvus.batchSizes b (n - b) := by
  obtain ⟨m, rfl⟩ : ∃ m, n = m + b := ⟨n - b, by omega⟩
  unfold IngestToMilvus.batchSizes
  rw [Nat.add_div_right _ (by omega), Nat.add_mod_right]
  simp [List.replicate_succ]

lemma batchSizes_small (b n : Nat) (hn : n < b) :
    IngestToMilvus.batchSizes b n = if n = 0 then [] else [n] := by
  unfold IngestToMilvus.batchSizes
  rw [Nat.div_eq_of_lt hn, Nat.mod_eq_of_lt hn]
  by_cases h : n = 0 <;> simp [h]

lemma chunks_map_length {α : Type _} (b : Nat) (hb : 1 ≤ b) :
    ∀ (l : List α), (chunks b l).map List.length = IngestToMilvus.batchSizes b l.length := by
  suffices H : ∀ (n : Nat) (l : List α), l.length = n →
      (chunks b l).map List.length = IngestToMilvus.batchSizes b l.length by
    intro l
    exact H l.length l rfl
  intro n
  induction n using Nat.strong_induction_on with
  | _ n ih =>
    intro l hl
    cases l with
    | nil => simp [chunks, IngestToMilvus.batchSizes]
    | cons x xs =>
      by_cases hlt : (x :: xs).length < b
      · rw [chunks_singleton b _ (by simp) (by omega)]
        rw [batchSizes_small b _ hlt]
        simp
      · have hble : b ≤ (x :: xs).length := by omega
        have hsplit : x :: xs = (x :: xs).take b ++ (x :: xs).drop b :=
          (List.take_append_drop _ _).symm
        have htl : ((x :: xs).take b).length = b := by
          rw [List.length_take]
          omega
        have hmeas : ((x :: xs).drop b).length < n := by
          rw [List.length_drop]
          omega
        conv_lhs => rw [hsplit]
        rw [chunks_cons_full b hb _ _ htl]
        simp only [List.map_cons, htl]
        rw [ih ((x :: xs).drop b).length hmeas ((x :: xs).drop b) rfl]
        rw [batchSizes_step b (x :: xs).length hb hble]
        congr 1
        rw [List.length_drop]

lemma ceil_mul (b q : Nat) (hb : 1 ≤ b) : (b * q + b - 1) / b = q := by
  have h2 : b * q + b - 1 = (b - 1) + b * q := by omega
  rw [h2, Nat.add_mul_div_left _ _ (show 0 < b by omega),
    Nat.div_eq_of_lt (by omega)]
  omega

lemma batchSizes_length (b n : Nat) (hb : 1 ≤ b) :
    (IngestToMilvus.batchSizes b n).length = (n + b - 1) / b := by
  unfold IngestToMilvus.batchSizes
  have h1 := Nat.div_add_mod n b
  by_cases hz : n % b = 0
  · obtain ⟨q, rfl⟩ : ∃ q, n = b * q := ⟨n / b, by omega⟩
    simp [hz, ceil_mul b q hb]
    rw [Nat.mul_div_cancel_left q (show 0 < b by omega)]
  · obtain ⟨q, r, hr1, hrb, rfl⟩ : ∃ q r, 1 ≤ r ∧ r < b ∧ n = b * q + r :=
      ⟨n / b, n % b, by omega, Nat.mod_lt _ (by omega), by omega⟩
    have hdiv : (b * q + r) / b = q := by
      rw [Nat.mul_add_div (show 0 < b by omega), Nat.div_eq_of_lt hrb]
      omega
    have hmod : (b * q + r) % b = r := by
      rw [Nat.mul_add_mod, Nat.mod_eq_of_lt hrb]
    have hmul : b * (q + 1) = b * q + b := by ring
    have hshape : b * q + r + b - 1 = (r - 1) + b * (q + 1) := by omega
    rw [hmod, if_neg (by omega), hdiv, hshape,
      Nat.add_mul_div_left _ _ (show 0 < b by omega),
      Nat.div_eq_of_lt (show r - 1 < b by omega)]
    simp

namespace IngestToMilvus

lemma mapMOpt_some_of_all (f : JValue → Option Row) :
    ∀ l : List JValue, (∀ r ∈ l, (f r).isSome) →
    ∃ rows, mapMOpt f l = some rows ∧ rows.length = l.length := by
  intro l
  induction l with
  | nil => intro _; exact ⟨[], rfl, rfl⟩
  | cons x xs ih =>
    intro h
    obtain ⟨rows, hr, hlen⟩ := ih (fun r hr => h r (List.mem_cons_of_mem _ hr))
    obtain ⟨y, hy⟩ := Option.isSome_iff_exists.mp (h x (List.mem_cons_self _ _))
    refine ⟨y :: rows, ?_, by simp [hlen]⟩
    simp [mapMOpt, hy, hr]

lemma flushBatch_none (i : Nat) (buf : List JValue)
    (hex : ∀ r ∈ buf, (extract_scalar_fields r).isSome) (hne : buf ≠ []) :
    ∃ rows, flushBatch i none buf
        = ([.embed (buf.map build_embedding_text), .insert rows], false)
      ∧ rows.length = buf.length := by
  obtain ⟨rows, hr, hlen⟩ := mapMOpt_some_of_all _ buf hex
  refine ⟨rows, ?_, hlen⟩
  simp [flushBatch, List.isEmpty_iff, hne, hr]

lemma embedSizes_pair (ts : List Str) (rows : List Row) (l : List Effect) :
    embedSizes ([Effect.embed ts, Effect.insert rows] ++ l) = ts.length :: embedSizes l := rfl

lemma insertSizes_pair (ts : List Str) (rows : List Row) (l : List Effect) :
    insertSizes ([Effect.embed ts, Effect.insert rows] ++ l) = rows.length :: insertSizes l := rfl

lemma ingestLoop_none (b : Nat) (hb : 1 ≤ b) :
    ∀ (rest buf : List JValue) (i : Nat), buf.length < b →
    (∀ r ∈ buf ++ rest, (extract_scalar_fields r).isSome) →
    (ingestLoop b none rest buf i).2 = false
    ∧ embedSizes (ingestLoop b none rest buf i).1
        = (chunks b (buf ++ rest)).map List.length
    ∧ insertSizes (ingestLoop b none rest buf i).1
        = (chunks b (buf ++ rest)).map List.length := by
  intro rest
  induction rest with
  | nil =>
    intro buf i hlen hex
    rw [List.append_nil] at hex
    have hstep : ingestLoop b none [] buf i = flushBatch i none buf := rfl
    by_cases hbuf : buf = []
    · subst hbuf
      refine ⟨rfl, ?_, ?_⟩ <;>
        simp [hstep, flushBatch, chunks, embedSizes, insertSizes]
    · obtain ⟨rows, hfl, hrlen⟩ := flushBatch_none i buf hex hbuf
      rw [List.append_nil, hstep, hfl,
        chunks_singleton b buf hbuf (by omega)]
      refine ⟨rfl, ?_, ?_⟩ <;>
        simp [embedSizes, insertSizes, List.filterMap_cons, hrlen]
  | cons r rest ih =>
    intro buf i hlen hex
    by_cases hfull : b ≤ (buf ++ [r]).length
    · have hlen2 : (buf ++ [r]).length = b := by
        simp at hfull ⊢
        omega
      have hex2 : ∀ x ∈ buf ++ [r], (extract_scalar_fields x).isSome := by
        intro x hx
        apply hex
        rcases List.mem_append.mp hx with h | h
        · exact List.mem_append_left _ h
        · simp at h
          subst h
          exact List.mem_append_right _ (List.mem_cons_self _ _)
      obtain ⟨rows, hfl, hrlen⟩ := flushBatch_none i (buf ++ [r]) hex2 (by simp)
      have hstep : ingestLoop b none (r :: rest) buf i
          = ([Effect.embed ((buf ++ [r]).map build_embedding_text), Effect.insert rows]
              ++ (ingestLoop b none rest [] (i + 1)).1,
             (ingestLoop b none rest [] (i + 1)).2) := by
        rw [ingestLoop]
        rw [if_pos hfull, hfl]
      have hexr : ∀ x ∈ ([] : List JValue) ++ rest, (extract_scalar_fields x).isSome := by
        intro x hx
        simp at hx
        exact hex x (List.mem_append_right _ (List.mem_cons_of_mem _ hx))
      obtain ⟨ih1, ih2, ih3⟩ := ih [] (i + 1) (by simpa using hb) hexr
      have hreassoc : buf ++ r :: rest = (buf ++ [r]) ++ rest := by
        rw [List.append_cons]
      have hstep1 : (ingestLoop b none (r :: rest) buf i).1
          = [Effect.embed ((buf ++ [r]).map build_embedding_text), Effect.insert rows]
              ++ (ingestLoop b none rest [] (i + 1)).1 := by rw [hstep]
      have hstep2 : (ingestLoop b none (r :: rest) buf i).2
          = (ingestLoop b none rest [] (i + 1)).2 := by rw [hstep]
      rw [hreassoc, chunks_cons_full b hb _ _ hlen2, hstep1, hstep2]
      refine ⟨ih1, ?_, ?_⟩
      · rw [embedSizes_pair, ih2]
        simp
      · rw [insertSizes_pair, ih3]
        simp [hrlen]
    · have hstep : ingestLoop b none (r :: rest) buf i
          = ingestLoop b none rest (buf ++ [r]) i := by
        rw [ingestLoop, if_neg hfull]
      have hlen2 : (buf ++ [r]).length < b := by
        simp at hfull ⊢
        omega
      have hre : buf ++ r :: rest = (buf ++ [r]) ++ rest := by simp
      have hex2 : ∀ x ∈ (buf ++ [r]) ++ rest, (extract_scalar_fields x).isSome := by
        intro x hx
        apply hex
        rw [hre]
        exact hx
      obtain ⟨ih1, ih2, ih3⟩ := ih (buf ++ [r]) i hlen2 hex2
      rw [hstep, hre]
      exact ⟨ih1, ih2, ih3⟩

end IngestToMilvus

namespace IngestToMilvus

lemma ingestMain_success (env : IngestEnv) (hf : env.fileExists = true)
    (hd : env.doneExists = false) (hl : env.lockExists = false)
    (hfail : env.failAt = none)
    (hloop : (ingestLoop env.cfg.batch_size none (stream_records env.lines) [] 0).2 = false) :
    (ingestMain env).effects
      = Effect.connect :: ensureCollectionEffects env.collectionExists
          ++ Effect.createLock ::
            ((ingestLoop env.cfg.batch_size none (stream_records env.lines) [] 0).1
              ++ [Effect.writeCheckpoint env.cfg.collection_name
                    (stream_records env.lines).length env.cfg.model_name env.cfg.dim,
                  Effect.removeLock])
    ∧ (ingestMain env).raised = false
    ∧ (ingestMain env).doneAfter = true
    ∧ (ingestMain env).lockAfter = false := by
  unfold ingestMain
  rw [hf, hd, hl, hfail]
  simp [hloop]

lemma embedSizes_full (c : Bool) (L : List Effect) (cn : Str) (n : Nat) (mn : Str) (d : Nat) :
    embedSizes (Effect.connect :: ensureCollectionEffects c
        ++ Effect.createLock :: (L ++ [Effect.writeCheckpoint cn n mn d, Effect.removeLock]))
      = embedSizes L := by
  cases c <;>
    simp [embedSizes, ensureCollectionEffects, List.filterMap_append, List.filterMap_cons]

lemma insertSizes_full (c : Bool) (L : List Effect) (cn : Str) (n : Nat) (mn : Str) (d : Nat) :
    insertSizes (Effect.connect :: ensureCollectionEffects c
        ++ Effect.createLock :: (L ++ [Effect.writeCheckpoint cn n mn d, Effect.removeLock]))
      = insertSizes L := by
  cases c <;>
    simp [insertSizes, ensureCollectionEffects, List.filterMap_append, List.filterMap_cons]

/-- C9 (confirmed): for a dataset file with `n` parseable records at batch
size `b ≥ 1`, the Ingestor makes the embedding calls and upsert batches with
exactly the sizes `b, …, b, n mod b` (`n / b` full batches, the remainder
batch only when nonzero), so in particular ceil(n/b) embedding calls and the
same number of upsert batches. -/
theorem C9_batch_sizes : ∀ env : IngestEnv,
    1 ≤ env.cfg.batch_size → env.failAt = none → env.fileExists = true →
    env.doneExists = false → env.lockExists = false →
    (∀ r ∈ stream_records env.lines, (extract_scalar_fields r).isSome) →
    embedSizes (ingestMain env).effects
      = batchSizes env.cfg.batch_size (stream_records env.lines).length
    ∧ insertSizes (ingestMain env).effects
      = batchSizes env.cfg.batch_size (stream_records env.lines).length
    ∧ (embedSizes (ingestMain env).effects).length
      = ((stream_records env.lines).length + env.cfg.batch_size - 1) / env.cfg.batch_size := by
  intro env hb hfail hf hd hl hex
  obtain ⟨hloop, hemb, hins⟩ :=
    ingestLoop_none env.cfg.batch_size hb (stream_records env.lines) [] 0
      (by simp; omega) (by simpa using hex)
  rw [chunks_map_length env.cfg.batch_size hb] at hemb hins
  simp only [List.nil_append] at hemb hins
  obtain ⟨heff, _, _, _⟩ := ingestMain_success env hf hd hl hfail hloop
  rw [heff, embedSizes_full, insertSizes_full, hemb, hins]
  exact ⟨rfl, rfl, batchSizes_length _ _ hb⟩

/-- C9 witness: batch size 2 with 5 parseable records (among blank and
malformed lines) produces embedding calls and upsert batches of sizes
2, 2, 1. -/
theorem C9_witness :
    (∀ r ∈ stream_records envBatchC9.lines, (extract_scalar_fields r).isSome)
    ∧ embedSizes (ingestMain envBatchC9).effects = [2, 2, 1]
    ∧ insertSizes (ingestMain envBatchC9).effects = [2, 2, 1]
    ∧ (embedSizes (ingestMain envBatchC9).effects).length = 3 := by
  have hex : ∀ r ∈ stream_records envBatchC9.lines, (extract_scalar_fields r).isSome := by
    decide
  have h := C9_batch_sizes envBatchC9 (by decide) rfl rfl rfl rfl hex
  refine ⟨hex, ?_, ?_, ?_⟩
  · rw [h.1]; decide
  · rw [h.2.1]; decide
  · rw [h.2.2]; decide

end IngestToMilvus

namespace IngestToMilvus

lemma stream_records_filter (lines : List LineContent) :
    stream_records (lines.filter LineContent.isRecordLine) = stream_records lines := by
  induction lines with
  | nil => rfl
  | cons l rest ih =>
    cases l with
    | blank => exact ih
    | malformed => exact ih
    | record r =>
      show r :: stream_records (rest.filter LineContent.isRecordLine)
        = r :: stream_records rest
      exact congrArg _ ih

/-- C10 (confirmed): the Ingestor's behaviour on a dataset file is identical
to its behaviour on the file with the blank and unparseable lines deleted
(they raise no error and are neither embedded nor upserted), and a completed
run writes a checkpoint counting exactly the parseable lines — zero when
every line is malformed. -/
theorem C10_malformed_lines_ignored : ∀ env : IngestEnv,
    ingestMain env
      = ingestMain { env with lines := env.lines.filter LineContent.isRecordLine }
    ∧ (1 ≤ env.cfg.batch_size → env.failAt = none → env.fileExists = true →
        env.doneExists = false → env.lockExists = false →
        (∀ r ∈ stream_records env.lines, (extract_scalar_fields r).isSome) →
        (ingestMain env).raised = false
        ∧ (ingestMain env).doneAfter = true
        ∧ Effect.writeCheckpoint env.cfg.collection_name
            (stream_records env.lines).length env.cfg.model_name env.cfg.dim
          ∈ (ingestMain env).effects) := by
  intro env
  constructor
  · unfold ingestMain
    simp [stream_records_filter]
  · intro hb hfail hf hd hl hex
    obtain ⟨hloop, _, _⟩ :=
      ingestLoop_none env.cfg.batch_size hb (stream_records env.lines) [] 0
        (by simp; omega) (by simpa using hex)
    obtain ⟨heff, hr, hda, _⟩ := ingestMain_success env hf hd hl hfail hloop
    refine ⟨hr, hda, ?_⟩
    rw [heff]
    simp

/-- C10 witness: a dataset file whose lines are all malformed or blank
completes a run equal to the empty-file run, raises nothing, and writes a
checkpoint recording 0 records after 0 embedding calls. -/
theorem C10_witness :
    ingestMain envMalformedC10
      = ingestMain { envMalformedC10 with
          lines := envMalformedC10.lines.filter LineContent.isRecordLine }
    ∧ (ingestMain envMalformedC10).raised = false
    ∧ (ingestMain envMalformedC10).doneAfter = true
    ∧ Effect.writeCheckpoint (chars "attacks_v2") 0 (chars "all-MiniLM-L6-v2") 384
        ∈ (ingestMain envMalformedC10).effects
    ∧ embedSizes (ingestMain envMalformedC10).effects = [] := by
  have h := C10_malformed_lines_ignored envMalformedC10
  have h2 := h.2 (by decide) rfl rfl rfl rfl (by decide)
  exact ⟨h.1, h2.1, h2.2.1, h2.2.2, by decide⟩

end IngestToMilvus

/-! ### Versioning lemmas -/

lemma digitChar_isDigit (d : Nat) (h : d < 10) : (digitChar d).isDigit = true := by
  interval_cases d <;> rfl

lemma digitChar_toNat (d : Nat) (h : d < 10) : (digitChar d).toNat = 48 + d := by
  interval_cases d <;> rfl

lemma digitsVal_append (xs : Str) (c : Char) :
    digitsVal (xs ++ [c]) = digitsVal xs * 10 + (c.toNat - 48) := by
  unfold digitsVal
  rw [List.foldl_append]
  rfl

lemma natCharsAux_spec : ∀ fuel n, n < fuel →
    digitsVal (natCharsAux fuel n) = n
    ∧ (∀ c ∈ natCharsAux fuel n, c.isDigit = true) := by
  intro fuel
  induction fuel with
  | zero => intro n h; omega
  | succ fuel ih =>
    intro n h
    by_cases hz : n = 0
    · subst hz
      simp [natCharsAux, digitsVal]
    · have hdiv : n / 10 < fuel := by
        have h1 : n / 10 < n := Nat.div_lt_self (by omega) (by omega)
        omega
      obtain ⟨ihv, ihd⟩ := ih (n / 10) hdiv
      have hmod : n % 10 < 10 := Nat.mod_lt n (by omega)
      have hstep : natCharsAux (fuel + 1) n
          = natCharsAux fuel (n / 10) ++ [digitChar (n % 10)] := by
        simp [natCharsAux, hz]
      constructor
      · rw [hstep, digitsVal_append, ihv, digitChar_toNat _ hmod]
        have h2 := Nat.div_add_mod n 10
        omega
      · intro c hc
        rw [hstep] at hc
        rcases List.mem_append.mp hc with h2 | h2
        · exact ihd c h2
        · simp at h2
          rw [h2]
          exact digitChar_isDigit _ hmod

lemma natChars_spec (n : Nat) :
    digitsVal (natChars n) = n
    ∧ (∀ c ∈ natChars n, c.isDigit = true)
    ∧ natChars n ≠ [] := by
  unfold natChars
  by_cases hz : n = 0
  · subst hz
    refine ⟨by decide, by decide, by decide⟩
  · rw [if_neg hz]
    obtain ⟨hv, hd⟩ := natCharsAux_spec (n + 1) n (by omega)
    have hne : natCharsAux (n + 1) n ≠ [] := by
      simp [natCharsAux, hz]
    exact ⟨hv, hd, hne⟩

lemma takeWhile_append_all {p : Char → Bool} :
    ∀ (xs ys : Str), (∀ x ∈ xs, p x = true) →
    (xs ++ ys).takeWhile p = xs ++ ys.takeWhile p := by
  intro xs
  induction xs with
  | nil => intro ys _; rfl
  | cons x xs ih =>
    intro ys h
    have hx : p x = true := h x (List.mem_cons_self _ _)
    simp only [List.cons_append, List.takeWhile_cons, hx]
    rw [ih ys (fun a ha => h a (List.mem_cons_of_mem _ ha))]
    simp

lemma dropWhile_append_all {p : Char → Bool} :
    ∀ (xs ys : Str), (∀ x ∈ xs, p x = true) →
    (xs ++ ys).dropWhile p = ys.dropWhile p := by
  intro xs
  induction xs with
  | nil => intro ys _; rfl
  | cons x xs ih =>
    intro ys h
    have hx : p x = true := h x (List.mem_cons_self _ _)
    simp only [List.cons_append, List.dropWhile_cons, hx]
    exact ih ys (fun a ha => h a (List.mem_cons_of_mem _ ha))

namespace NormalizeAndMove

lemma globMatch_build (slug mid : Str) :
    globMatch slug (slug ++ chars "_v" ++ mid ++ chars ".jsonl") = true := by
  have hassoc : slug ++ chars "_v" ++ mid ++ chars ".jsonl"
      = (slug ++ chars "_v") ++ (mid ++ chars ".jsonl") := by
    simp [List.append_assoc]
  have h2 : (chars "_v").length = 2 := rfl
  have h6 : (chars ".jsonl").length = 6 := rfl
  simp only [globMatch, Bool.and_eq_true, decide_eq_true_eq]
  refine ⟨⟨?_, ?_⟩, ?_⟩
  · rw [hassoc]
    exact List.prefix_append _ _
  · rw [hassoc]
    exact (List.suffix_append mid (chars ".jsonl")).trans (List.suffix_append _ _)
  · simp [List.length_append, h2, h6]
    omega

lemma regexVersion_build (slug ds : Str) (hds : ∀ c ∈ ds, c.isDigit = true)
    (hne : ds ≠ []) :
    regexVersion (slug ++ chars "_v" ++ ds ++ chars ".jsonl") = some (digitsVal ds) := by
  have h6 : (chars ".jsonl").length = 6 := rfl
  have hassoc : slug ++ chars "_v" ++ ds ++ chars ".jsonl"
      = (slug ++ chars "_v" ++ ds) ++ chars ".jsonl" := by
    simp [List.append_assoc]
  have hsuf : (chars ".jsonl") <:+ slug ++ chars "_v" ++ ds ++ chars ".jsonl" := by
    rw [hassoc]
    exact List.suffix_append _ _
  have hlen : (slug ++ chars "_v" ++ ds ++ chars ".jsonl").length - 6
      = (slug ++ chars "_v" ++ ds).length := by
    simp [List.length_append, h6]
    omega
  have hbase : (slug ++ chars "_v" ++ ds ++ chars ".jsonl").take
      ((slug ++ chars "_v" ++ ds ++ chars ".jsonl").length - 6)
      = slug ++ chars "_v" ++ ds := by
    rw [hlen, hassoc]
    exact List.take_left _ _
  have hv : (chars "_v").reverse = ['v', '_'] := rfl
  have hrev : (slug ++ chars "_v" ++ ds).reverse
      = ds.reverse ++ ('v' :: '_' :: slug.reverse) := by
    simp [List.reverse_append, hv]
  have hdsrev : ∀ x ∈ ds.reverse, x.isDigit = true := by
    intro x hx
    exact hds x (by simpa using hx)
  have htake : takeRightWhile Char.isDigit (slug ++ chars "_v" ++ ds) = ds := by
    unfold takeRightWhile
    rw [hrev, takeWhile_append_all _ _ hdsrev]
    have hstop : List.takeWhile Char.isDigit ('v' :: '_' :: slug.reverse) = [] := by
      simp [List.takeWhile_cons]
    rw [hstop, List.append_nil, List.reverse_reverse]
  have hdrop : dropRightWhile Char.isDigit (slug ++ chars "_v" ++ ds)
      = slug ++ chars "_v" := by
    unfold dropRightWhile
    rw [hrev, dropWhile_append_all _ _ hdsrev]
    have hstay : List.dropWhile Char.isDigit ('v' :: '_' :: slug.reverse)
        = 'v' :: '_' :: slug.reverse := by
      simp [List.dropWhile_cons]
    rw [hstay]
    have hv2 : chars "_v" = ['_', 'v'] := rfl
    simp [hv2]
  have hc1 : (!ds.isEmpty) = true := by
    simpa [List.isEmpty_iff] using hne
  have hc2 : (chars "_v") <:+ slug ++ chars "_v" := List.suffix_append _ _
  unfold regexVersion
  rw [if_pos (decide_eq_true hsuf), hbase, htake, hdrop]
  simp [hc1, decide_eq_true hc2]

lemma foldl_max_init_le : ∀ (l : List Nat) (a : Nat), a ≤ l.foldl Nat.max a := by
  intro l
  induction l with
  | nil => intro a; exact Nat.le_refl a
  | cons x xs ih =>
    intro a
    exact Nat.le_trans (Nat.le_max_left a x) (ih (Nat.max a x))

lemma mem_le_foldl_max : ∀ (l : List Nat) (a x : Nat), x ∈ l → x ≤ l.foldl Nat.max a := by
  intro l
  induction l with
  | nil => intro a x h; simp at h
  | cons y ys ih =>
    intro a x h
    rcases List.mem_cons.mp h with h | h
    · subst h
      exact Nat.le_trans (Nat.le_max_right a x) (foldl_max_init_le ys (Nat.max a x))
    · exact ih (Nat.max a y) x h

lemma le_listMaxNat (l : List Nat) (x : Nat) (h : x ∈ l) : x ≤ listMaxNat l :=
  mem_le_foldl_max l 0 x h

lemma version_lt_next (folder : List Str) (slug name : Str) (k : Nat)
    (hmem : name ∈ folder) (hglob : globMatch slug name = true)
    (hreg : regexVersion name = some k) :
    k < nextVersionNum folder slug := by
  have hex : name ∈ folder.filter (globMatch slug) := List.mem_filter.mpr ⟨hmem, hglob⟩
  have hkv : k ∈ (folder.filter (globMatch slug)).filterMap regexVersion :=
    List.mem_filterMap.mpr ⟨name, hex, hreg⟩
  unfold nextVersionNum
  split
  · next h =>
    rw [List.isEmpty_iff] at h
    rw [h] at hex
    simp at hex
  · split
    · next h2 =>
      rw [List.isEmpty_iff] at h2
      rw [h2] at hkv
      simp at hkv
    · have := le_listMaxNat _ k hkv
      omega

/-- C6 (corrected): the chosen version number is one greater than the
maximum `N` extracted from ALL files matching the glob `slug_v*.jsonl` — a
set that may include files of longer slugs extending this slug (see the
counterexample), not only files named exactly `slug_v<N>.jsonl`; the
concrete `slug_v1`+`slug_v3` → `slug_v4` behaviour holds, the chosen version
exceeds every matched file's version (strict increase), and the chosen path
never already exists in the folder (no overwrite). -/
theorem C6_next_version : 
    (next_version_path [chars "sample_x_v1.jsonl", chars "sample_x_v3.jsonl"]
        (chars "sample_x") = chars "sample_x_v4.jsonl")
    ∧ (∀ (folder : List Str) (slug : Str), next_version_path folder slug ∉ folder)
    ∧ (∀ (folder : List Str) (slug name : Str) (k : Nat), name ∈ folder →
        globMatch slug name = true → regexVersion name = some k →
        k < nextVersionNum folder slug) := by
  refine ⟨by decide, ?_, fun folder slug name k hm hg hr =>
    version_lt_next folder slug name k hm hg hr⟩
  intro folder slug hmem
  obtain ⟨hval, hdig, hne⟩ := natChars_spec (nextVersionNum folder slug)
  have hglob : globMatch slug (next_version_path folder slug) = true := by
    unfold next_version_path
    exact globMatch_build slug (natChars (nextVersionNum folder slug))
  have hreg : regexVersion (next_version_path folder slug)
      = some (nextVersionNum folder slug) := by
    unfold next_version_path
    rw [regexVersion_build slug (natChars (nextVersionNum folder slug)) hdig hne, hval]
  have hlt := version_lt_next folder slug _ (nextVersionNum folder slug) hmem hglob hreg
  omega

/-- C6 witness: in a folder holding only `a_vb_v5.jsonl`, the file
glob-matches slug `a` with extracted version 5, the chosen version exceeds
it, and the chosen path does not collide with the folder's contents. -/
theorem C6_witness :
    (chars "a_vb_v5.jsonl") ∈ [chars "a_vb_v5.jsonl"]
    ∧ globMatch (chars "a") (chars "a_vb_v5.jsonl") = true
    ∧ regexVersion (chars "a_vb_v5.jsonl") = some 5
    ∧ 5 < nextVersionNum [chars "a_vb_v5.jsonl"] (chars "a")
    ∧ next_version_path [chars "a_vb_v5.jsonl"] (chars "a") ∉ [chars "a_vb_v5.jsonl"] := by
  refine ⟨by decide, by decide, by decide, ?_, C6_next_version.2.1 _ _⟩
  exact C6_next_version.2.2 [chars "a_vb_v5.jsonl"] (chars "a")
    (chars "a_vb_v5.jsonl") 5 (by decide) (by decide) (by decide)

/-- C6 counterexample: the claim's exact-slug rule predicts `a_v1.jsonl`
for a folder holding only `a_vb_v5.jsonl` (no file named `a_v<N>.jsonl`
exists), but the code produces `a_v6.jsonl` because the glob
`a_v*.jsonl` also matches the longer slug's file. -/
theorem C6_counterexample :
    claimNextVersionPath [chars "a_vb_v5.jsonl"] (chars "a") = chars "a_v1.jsonl"
    ∧ next_version_path [chars "a_vb_v5.jsonl"] (chars "a") = chars "a_v6.jsonl"
    ∧ next_version_path [chars "a_vb_v5.jsonl"] (chars "a")
        ≠ claimNextVersionPath [chars "a_vb_v5.jsonl"] (chars "a") := by
  exact ⟨by decide, by decide, by decide⟩

end NormalizeAndMove

/-! ### Normalizer lemmas -/

namespace NormalizeAndMove

lemma jsonlNormLoop_err : ∀ (lines : List LineContent) (acc : List JValue) (n : Nat),
    (∃ l ∈ lines, l = LineContent.malformed
        ∨ ∃ r, l = LineContent.record r ∧ r.isDict = false) →
    ∃ e, jsonlNormLoop lines acc n = .error e := by
  intro lines
  induction lines with
  | nil =>
    intro acc n h
    obtain ⟨l, hl, _⟩ := h
    exact absurd hl (List.not_mem_nil l)
  | cons l rest ih =>
    intro acc n h
    obtain ⟨l2, hl2, hbad⟩ := h
    cases l with
    | blank =>
      rcases List.mem_cons.mp hl2 with h2 | h2
      · subst h2
        rcases hbad with h3 | ⟨r, h3, _⟩ <;> simp at h3
      · exact ih acc n ⟨l2, h2, hbad⟩
    | malformed => exact ⟨_, rfl⟩
    | record r =>
      cases r with
      | obj fields =>
        rcases List.mem_cons.mp hl2 with h2 | h2
        · subst h2
          rcases hbad with h3 | ⟨r2, h3, h4⟩
          · simp at h3
          · injection h3 with h5
            rw [← h5] at h4
            simp [JValue.isDict] at h4
        · exact ih _ _ ⟨l2, h2, hbad⟩
      | null => exact ⟨_, rfl⟩
      | bool b => exact ⟨_, rfl⟩
      | num m => exact ⟨_, rfl⟩
      | str s => exact ⟨_, rfl⟩
      | arr items => exact ⟨_, rfl⟩

/-- C7 (confirmed): a JSONL submission containing a non-blank line that
does not parse as a JSON object aborts the whole normalization: nothing is
committed to the dataset store, no manifest entry is appended, the original
submission is quarantined as `<name>.failed`, and the process exits with
status 2, which differs from the usage-error status 1. -/
theorem C7_malformed_jsonl_quarantined : ∀ (env : NormEnv) (lines : List LineContent),
    env.argcOk = true → env.body = .jsonl lines →
    (∃ l ∈ lines, l = LineContent.malformed
        ∨ ∃ r, l = LineContent.record r ∧ r.isDict = false) →
    (normMain env).exitCode = 2
    ∧ (normMain env).dataset = none
    ∧ (normMain env).manifest = none
    ∧ (normMain env).failedName = some (env.srcName ++ chars ".failed")
    ∧ (normMain env).exitCode ≠ 1 := by
  intro env lines hargc hbody hbad
  obtain ⟨e, he⟩ := jsonlNormLoop_err lines [] 0 hbad
  have hnorm : normalize_to_jsonl env.body = .error e := by
    rw [hbody]
    exact he
  have hpipe : normPipeline env = .error e := by
    unfold normPipeline
    rw [hnorm]
    rfl
  simp [normMain, hargc, hpipe]

/-- C7 witness: a submission with one valid line and one malformed line is
quarantined with exit status 2 and no dataset output. -/
theorem C7_witness :
    (∃ l ∈ [LineContent.record (JValue.obj []), LineContent.malformed],
        l = LineContent.malformed
        ∨ ∃ r, l = LineContent.record r ∧ r.isDict = false)
    ∧ (normMain envBadC7).exitCode = 2
    ∧ (normMain envBadC7).dataset = none
    ∧ (normMain envBadC7).manifest = none
    ∧ (normMain envBadC7).failedName = some (chars "bad.jsonl" ++ chars ".failed") := by
  have hbad : ∃ l ∈ [LineContent.record (JValue.obj []), LineContent.malformed],
      l = LineContent.malformed
      ∨ ∃ r, l = LineContent.record r ∧ r.isDict = false :=
    ⟨LineContent.malformed, by simp, Or.inl rfl⟩
  have h := C7_malformed_jsonl_quarantined envBadC7 _ rfl rfl hbad
  exact ⟨hbad, h.1, h.2.1, h.2.2.1, h.2.2.2.1⟩

end NormalizeAndMove

namespace NormalizeAndMove

/-- C8 (confirmed): a submission that is a single JSON object whose
`important.category` and `important.sub_category` are strings (and whose
optional title slugs successfully) is committed as a dataset file with
exactly one line equal to the input object, and the appended manifest entry
records 1 record; the run exits 0 and quarantines nothing. -/
theorem C8_single_object_roundtrip : ∀ (env : NormEnv) (fs : List (Str × JValue))
    (imp : JValue) (c s bslug : Str),
    env.argcOk = true →
    env.body = .single (some (.obj fs)) →
    lookupField (chars "important") fs = some imp →
    pyIndex imp (chars "category") = some (.str c) →
    pyIndex imp (chars "sub_category") = some (.str s) →
    chooseSlug ((pyIndex imp (chars "title")).getD JValue.null) c s = .ok bslug →
    (normMain env).exitCode = 0
    ∧ (normMain env).dataset
        = some (c, s, next_version_path (env.folders c s) bslug, [JValue.obj fs])
    ∧ (normMain env).manifest = some (next_version_path (env.folders c s) bslug, 1)
    ∧ (normMain env).failedName = none := by
  intro env fs imp c s bslug hargc hbody himp hcat hsub hslug
  have himp2 : pyIndex (JValue.obj fs) (chars "important") = some imp := himp
  have hek : extract_keys (JValue.obj fs)
      = .ok (JValue.str c, JValue.str s, (pyIndex imp (chars "title")).getD JValue.null) := by
    unfold extract_keys
    simp only [himp2, hcat, hsub]
  have hpipe : normPipeline env
      = .ok (c, s, next_version_path (env.folders c s) bslug, [JValue.obj fs], 1) := by
    unfold normPipeline
    rw [hbody]
    show Except.bind (extract_keys (JValue.obj fs)) _ = _
    rw [hek]
    show Except.bind (chooseSlug ((pyIndex imp (chars "title")).getD JValue.null) c s) _ = _
    rw [hslug]
    rfl
  simp [normMain, hargc, hpipe]

/-- C8 witness: a single object with category `malware`, sub-category
`ransomware` and title `Sample X` lands as `sample_x_v1.jsonl` holding
exactly the input object, with a manifest entry of 1 record. -/
theorem C8_witness :
    (normMain envC8).exitCode = 0
    ∧ (normMain envC8).dataset
        = some (chars "malware", chars "ransomware",
            next_version_path [] (chars "sample_x"), [JValue.obj recC8fields])
    ∧ (normMain envC8).manifest = some (next_version_path [] (chars "sample_x"), 1)
    ∧ next_version_path [] (chars "sample_x") = chars "sample_x_v1.jsonl" := by
  have h := C8_single_object_roundtrip envC8 recC8fields
    (JValue.obj [ (chars "category", JValue.str (chars "malware")),
                  (chars "sub_category", JValue.str (chars "ransomware")),
                  (chars "title", JValue.str (chars "Sample X")) ])
    (chars "malware") (chars "ransomware") (chars "sample_x")
    rfl rfl rfl rfl rfl (by rfl)
  exact ⟨h.1, h.2.1, h.2.2.1, by decide⟩

end NormalizeAndMove
